import Mathlib

/-!
# Verification of the CHIP-8 interpreter core (chip8.rs)

A shallow embedding of the instruction-execution engine of the repository's
`src/chip8.rs`.  Machine bytes/words are modelled as `Nat` with explicit
`% 256` / `% 65536` wrapping where the Rust code relies on wrapping
(`overflowing_add`, `overflowing_sub`, release-mode `-=` on `u8`), fixed-size
Rust arrays are modelled as total functions `Nat → Nat` with explicit bound
checks (`Option`, where `none` models a Rust index-out-of-bounds or
arithmetic-overflow panic) exactly at those accesses whose index is not
syntactically bounded by the 4-bit fields of the instruction encoding, and
fallible operations return `Except ChipError`.

The pseudo-random generator (`rand_pcg::Lcg64Xsh32`, an external crate) is
modelled as an abstract injected stream `rng : Nat → Nat` with a cursor, as
the spec describes it ("an injected pseudo-random source ... must be
seedable").
-/

namespace Chip8V

set_option maxRecDepth 8192

/-! ## Constants (chip8.rs lines 8-20) -/

abbrev MEMORY_SIZE : Nat := 4096
abbrev REGISTER_COUNT : Nat := 16
abbrev STACK_SIZE : Nat := 16
abbrev SCREEN_WIDTH : Nat := 64
abbrev SCREEN_HEIGHT : Nat := 32
abbrev REG_V0 : Nat := 0x00
abbrev REG_VF : Nat := 0x0F
abbrev MEMORY_OFFSET : Nat := 0x0200
abbrev INSTRUCTION_SIZE : Nat := 2
abbrev FRAME_BUFFER_SIZE : Nat := SCREEN_WIDTH * SCREEN_HEIGHT / 8

/-! ## Machine state (struct Chip8) -/

structure Chip8 where
  memory : Nat → Nat        -- [u8; 4096]
  registers : Nat → Nat     -- [u8; 16]
  stack : Nat → Nat         -- [u16; 16]
  frame_buffer : Nat → Nat  -- [u8; 256]
  sp : Nat                  -- u8 stack pointer
  ir : Nat                  -- u16 index register
  dt : Nat                  -- u8 delay timer
  st : Nat                  -- u8 sound timer
  pc : Nat                  -- u16 program counter
  rng : Nat → Nat           -- abstract stream of next_u32 outputs
  rng_i : Nat               -- cursor into the rng stream
  keypad_waiting : Bool
  keypad_reg : Nat
  display_changed : Bool
  sound_playing : Bool

inductive ChipError where
  | BadOperationError (b1 b2 : Nat)
  | EmptyStackError
  | FullStackError
  | ProgramCounterError (pc : Nat)
  | MemoryOverflowError
deriving DecidableEq

inductive ProgramCounterControl where
  | Next
  | Skip
  | Jump (addr : Nat)
deriving DecidableEq

/-- Pointwise update of an array-as-function. -/
def updFn (f : Nat → Nat) (i v : Nat) : Nat → Nat :=
  fun x => if x = i then v else f x

/-- Checked read of the 4096-byte memory; `none` models a Rust
index-out-of-bounds panic. -/
def readMem (m : Nat → Nat) (a : Nat) : Option Nat :=
  if a < MEMORY_SIZE then some (m a) else none

/-- Checked write to the 4096-byte memory; `none` models a Rust
index-out-of-bounds panic. -/
def writeMem (m : Nat → Nat) (a v : Nat) : Option (Nat → Nat) :=
  if a < MEMORY_SIZE then some (updFn m a v) else none

/-- Modelled from the spec: the repository's `hexes` module (`HEXES_FLAT`)
is not among the available sources.  The spec says only that "a built-in
font/glyph table occupies addresses 0x000 upward (5 bytes per hex digit,
16 digits)", i.e. 80 bytes of unspecified content, so `Chip8::new` is
parametrised by the abstract 80-byte table. -/
abbrev HEXES_FLAT_LEN : Nat := 80

/-- `Chip8::new`: zeroed state, font loaded at address 0, pc at 0x200. -/
def Chip8.new (font : Nat → Nat) (rng : Nat → Nat) : Chip8 where
  memory := fun a => if a < HEXES_FLAT_LEN then font a else 0
  registers := fun _ => 0
  stack := fun _ => 0
  frame_buffer := fun _ => 0
  sp := 0
  ir := 0
  dt := 0
  st := 0
  pc := MEMORY_OFFSET
  rng := rng
  rng_i := 0
  keypad_waiting := false
  keypad_reg := 0
  display_changed := false
  sound_playing := false

/-! ## Program load (Chip8::load, lines 101-111)

The Rust loop writes byte `i` to `MEMORY_OFFSET + i`, returning
`MemoryOverflowError` as soon as an address reaches `MEMORY_SIZE`;
already-written bytes stay in memory. -/

def loadAux (m : Nat → Nat) : List Nat → Nat → Except ChipError Unit × (Nat → Nat)
  | [], _ => (Except.ok (), m)
  | b :: bs, i =>
      let mem_addr := MEMORY_OFFSET + i
      if MEMORY_SIZE ≤ mem_addr then (Except.error ChipError.MemoryOverflowError, m)
      else loadAux (updFn m mem_addr b) bs (i + 1)

def Chip8.load (ch : Chip8) (bytes : List Nat) : Except ChipError Unit × Chip8 :=
  let r := loadAux ch.memory bytes 0
  (r.1, { ch with memory := r.2 })

/-! ## Stack (Chip8::stack_pop / stack_push, lines 114-133)

The source tests `sp == 0xFF` for both emptiness and fullness.  `sp` starts
at 0, so the first pop reads `stack[0]` and then executes `self.sp -= 1`,
which wraps to 255 on a release-build `u8` (debug builds abort there; either
way no `EmptyStackError` is produced).  A push at `sp = 15` executes
`self.sp += 1; self.stack[16] = val`, an index-out-of-bounds panic, modelled
by `none`. -/

def Chip8.stack_pop (ch : Chip8) : Option (Except ChipError (Nat × Chip8)) :=
  if ch.sp = 0xFF then some (Except.error ChipError.EmptyStackError)
  else if ch.sp < STACK_SIZE then
    some (Except.ok (ch.stack ch.sp, { ch with sp := (ch.sp + 255) % 256 }))
  else none

def Chip8.stack_push (ch : Chip8) (val : Nat) : Option (Except ChipError Chip8) :=
  if ch.sp = 0xFF then some (Except.error ChipError.FullStackError)
  else if ch.sp + 1 < STACK_SIZE then
    some (Except.ok { ch with sp := ch.sp + 1, stack := updFn ch.stack (ch.sp + 1) val })
  else none

/-! ## Opcodes (lines 136-403)

Each `op_*` mirrors the Rust method of the same name; the Rust methods
mutate `self` and return a `ProgramCounterControl`, modelled here as a
returned pair. -/

abbrev OpResult := ProgramCounterControl × Chip8

def Chip8.op_cls (ch : Chip8) : OpResult :=
  (ProgramCounterControl.Next, { ch with frame_buffer := fun _ => 0 })

def Chip8.op_ret (ch : Chip8) : Option (Except ChipError OpResult) :=
  match ch.stack_pop with
  | none => none
  | some (Except.error e) => some (Except.error e)
  | some (Except.ok (new_addr, ch')) =>
      some (Except.ok (ProgramCounterControl.Jump new_addr, ch'))

def Chip8.op_jp (ch : Chip8) (addr : Nat) : OpResult :=
  (ProgramCounterControl.Jump addr, ch)

def Chip8.op_call (ch : Chip8) (addr : Nat) : Option (Except ChipError OpResult) :=
  match ch.stack_push (ch.pc + INSTRUCTION_SIZE) with
  | none => none
  | some (Except.error e) => some (Except.error e)
  | some (Except.ok ch') => some (Except.ok (ProgramCounterControl.Jump addr, ch'))

def Chip8.op_se (ch : Chip8) (reg val : Nat) : OpResult :=
  if ch.registers reg = val then (ProgramCounterControl.Skip, ch)
  else (ProgramCounterControl.Next, ch)

def Chip8.op_sne (ch : Chip8) (reg val : Nat) : OpResult :=
  if ch.registers reg ≠ val then (ProgramCounterControl.Skip, ch)
  else (ProgramCounterControl.Next, ch)

def Chip8.op_se_reg (ch : Chip8) (reg1 reg2 : Nat) : OpResult :=
  if ch.registers reg1 = ch.registers reg2 then (ProgramCounterControl.Skip, ch)
  else (ProgramCounterControl.Next, ch)

def Chip8.op_ld (ch : Chip8) (reg val : Nat) : OpResult :=
  (ProgramCounterControl.Next, { ch with registers := updFn ch.registers reg val })

-- overflowing_add on u8: wrapped value
def Chip8.op_add (ch : Chip8) (reg val : Nat) : OpResult :=
  (ProgramCounterControl.Next,
   { ch with registers := updFn ch.registers reg ((ch.registers reg + val) % 256) })

def Chip8.op_ld_reg (ch : Chip8) (reg1 reg2 : Nat) : OpResult :=
  (ProgramCounterControl.Next,
   { ch with registers := updFn ch.registers reg1 (ch.registers reg2) })

def Chip8.op_or (ch : Chip8) (reg1 reg2 : Nat) : OpResult :=
  (ProgramCounterControl.Next,
   { ch with registers := updFn ch.registers reg1 (ch.registers reg1 ||| ch.registers reg2) })

def Chip8.op_and (ch : Chip8) (reg1 reg2 : Nat) : OpResult :=
  (ProgramCounterControl.Next,
   { ch with registers := updFn ch.registers reg1 (ch.registers reg1 &&& ch.registers reg2) })

def Chip8.op_xor (ch : Chip8) (reg1 reg2 : Nat) : OpResult :=
  (ProgramCounterControl.Next,
   { ch with registers := updFn ch.registers reg1 (ch.registers reg1 ^^^ ch.registers reg2) })

-- overflowing_add: (wrapped sum, carry); VF is written after the result
def Chip8.op_add_reg (ch : Chip8) (reg1 reg2 : Nat) : OpResult :=
  let val1 := ch.registers reg1
  let val2 := ch.registers reg2
  let regs1 := updFn ch.registers reg1 ((val1 + val2) % 256)
  (ProgramCounterControl.Next,
   { ch with registers := updFn regs1 REG_VF (if 256 ≤ val1 + val2 then 1 else 0) })

-- overflowing_sub: (wrapped difference, borrow); VF := !borrow
def Chip8.op_sub_reg (ch : Chip8) (reg1 reg2 : Nat) : OpResult :=
  let val1 := ch.registers reg1
  let val2 := ch.registers reg2
  let regs1 := updFn ch.registers reg1 ((val1 + 256 - val2) % 256)
  (ProgramCounterControl.Next,
   { ch with registers := updFn regs1 REG_VF (if val1 < val2 then 0 else 1) })

def Chip8.op_shr (ch : Chip8) (reg : Nat) : OpResult :=
  let val := ch.registers reg
  let regs1 := updFn ch.registers reg (val >>> 1)
  (ProgramCounterControl.Next,
   { ch with registers := updFn regs1 REG_VF (val &&& 1) })

-- reverse subtract: reg1 := val2 - val1 (wrapped); VF := !borrow
def Chip8.op_subn_reg (ch : Chip8) (reg1 reg2 : Nat) : OpResult :=
  let val1 := ch.registers reg1
  let val2 := ch.registers reg2
  let regs1 := updFn ch.registers reg1 ((val2 + 256 - val1) % 256)
  (ProgramCounterControl.Next,
   { ch with registers := updFn regs1 REG_VF (if val2 < val1 then 0 else 1) })

-- u8 shift left truncates to 8 bits
def Chip8.op_shl (ch : Chip8) (reg : Nat) : OpResult :=
  let val := ch.registers reg
  let regs1 := updFn ch.registers reg ((val <<< 1) % 256)
  (ProgramCounterControl.Next,
   { ch with registers := updFn regs1 REG_VF ((val >>> 7) &&& 1) })

def Chip8.op_sne_reg (ch : Chip8) (reg1 reg2 : Nat) : OpResult :=
  if ch.registers reg1 ≠ ch.registers reg2 then (ProgramCounterControl.Skip, ch)
  else (ProgramCounterControl.Next, ch)

def Chip8.op_ld_i (ch : Chip8) (val : Nat) : OpResult :=
  (ProgramCounterControl.Next, { ch with ir := val })

def Chip8.op_jp_v0 (ch : Chip8) (addr : Nat) : OpResult :=
  (ProgramCounterControl.Jump (ch.registers REG_V0 + addr), ch)

-- next_u32() as u8, & val
def Chip8.op_rnd (ch : Chip8) (reg val : Nat) : OpResult :=
  (ProgramCounterControl.Next,
   { ch with registers := updFn ch.registers reg (ch.rng ch.rng_i % 256 &&& val),
             rng_i := ch.rng_i + 1 })

/-! ## Draw (Chip8::op_drw, lines 295-323)

The inner `for bit in 0..8` body; the `(Nat → Nat) × Bool` accumulator is
the (framebuffer, overlap-flag) pair threaded through the loops. -/

def drawBit (xpos cur_y memory_byte bit : Nat) (acc : (Nat → Nat) × Bool) :
    Option ((Nat → Nat) × Bool) :=
  if memory_byte &&& (1 <<< (7 - bit)) > 0 then
    let cur_x := (xpos + bit) % SCREEN_WIDTH
    let display_byte_index := (cur_y * SCREEN_WIDTH + cur_x) / 8
    let display_bit_index := 7 - cur_x % 8
    let display_mask := 1 <<< display_bit_index
    if display_byte_index < FRAME_BUFFER_SIZE then
      let overlap := if acc.1 display_byte_index &&& display_mask > 0 then true else acc.2
      some (updFn acc.1 display_byte_index (acc.1 display_byte_index ^^^ display_mask),
            overlap)
    else none
  else some acc

/-- The `for byte in 0..byte_count` body: one sprite row. -/
def drawRow (mem : Nat → Nat) (ir xpos ypos row : Nat) (acc : (Nat → Nat) × Bool) :
    Option ((Nat → Nat) × Bool) :=
  match readMem mem (ir + row) with
  | none => none
  | some memory_byte =>
      let cur_y := (ypos + row) % SCREEN_HEIGHT
      (List.range 8).foldlM (fun a bit => drawBit xpos cur_y memory_byte bit a) acc

def Chip8.op_drw (ch : Chip8) (regx regy byte_count : Nat) : Option OpResult :=
  let xpos := ch.registers regx
  let ypos := ch.registers regy
  match (List.range byte_count).foldlM
      (fun acc row => drawRow ch.memory ch.ir xpos ypos row acc)
      (ch.frame_buffer, false) with
  | none => none
  | some (fb, overlap) =>
      some (ProgramCounterControl.Next,
        { ch with frame_buffer := fb,
                  registers := updFn ch.registers REG_VF (if overlap then 1 else 0),
                  display_changed := true })

/-! ## Keypad skips (lines 326-343)

`key_input & (1u16 << val)` with `val` the full 8-bit register value: the
shift overflows the 16-bit width whenever `val ≥ 16` (a Rust
shift-overflow panic), modelled as `none`. -/

def Chip8.op_skp (ch : Chip8) (reg key_input : Nat) : Option OpResult :=
  let val := ch.registers reg
  if val < 16 then
    some (if key_input &&& (1 <<< val) > 0 then (ProgramCounterControl.Skip, ch)
          else (ProgramCounterControl.Next, ch))
  else none

def Chip8.op_sknp (ch : Chip8) (reg key_input : Nat) : Option OpResult :=
  let val := ch.registers reg
  if val < 16 then
    some (if key_input &&& (1 <<< val) = 0 then (ProgramCounterControl.Skip, ch)
          else (ProgramCounterControl.Next, ch))
  else none

/-! ## Timer / misc F-opcodes (lines 345-403) -/

def Chip8.op_ld_vx_dt (ch : Chip8) (reg : Nat) : OpResult :=
  (ProgramCounterControl.Next, { ch with registers := updFn ch.registers reg ch.dt })

def Chip8.op_key_wait (ch : Chip8) (reg : Nat) : OpResult :=
  (ProgramCounterControl.Next, { ch with keypad_waiting := true, keypad_reg := reg })

def Chip8.op_ld_dt_vx (ch : Chip8) (reg : Nat) : OpResult :=
  (ProgramCounterControl.Next, { ch with dt := ch.registers reg })

def Chip8.op_ld_st_vx (ch : Chip8) (reg : Nat) : OpResult :=
  (ProgramCounterControl.Next, { ch with st := ch.registers reg })

-- `self.ir += registers[reg] as u16` (u16 wrapping in release builds)
def Chip8.op_add_i_vx (ch : Chip8) (reg : Nat) : OpResult :=
  (ProgramCounterControl.Next, { ch with ir := (ch.ir + ch.registers reg) % 65536 })

def Chip8.op_ld_f_vx (ch : Chip8) (reg : Nat) : OpResult :=
  let digit := ch.registers reg
  (ProgramCounterControl.Next, { ch with ir := (digit &&& 0xF) * 5 })

-- BCD store: three consecutive checked memory writes at ir, ir+1, ir+2
def Chip8.op_ld_b_vx (ch : Chip8) (reg : Nat) : Option OpResult :=
  let val := ch.registers reg
  match writeMem ch.memory ch.ir (val / 100 % 10) with
  | none => none
  | some m1 =>
    match writeMem m1 (ch.ir + 1) (val / 10 % 10) with
    | none => none
    | some m2 =>
      match writeMem m2 (ch.ir + 2) (val % 10) with
      | none => none
      | some m3 => some (ProgramCounterControl.Next, { ch with memory := m3 })

-- Stores registers v0 through vx into memory (`for ind in 0..reg+1`)
def Chip8.op_ld_i_vx (ch : Chip8) (reg : Nat) : Option OpResult :=
  match (List.range (reg + 1)).foldlM
      (fun m ind => writeMem m (ch.ir + ind) (ch.registers ind)) ch.memory with
  | none => none
  | some m => some (ProgramCounterControl.Next, { ch with memory := m })

-- Reads registers v0 through vx from memory
def Chip8.op_ld_vx_i (ch : Chip8) (reg : Nat) : Option OpResult :=
  match (List.range (reg + 1)).foldlM
      (fun regs ind => (readMem ch.memory (ch.ir + ind)).map (fun v => updFn regs ind v))
      ch.registers with
  | none => none
  | some regs => some (ProgramCounterControl.Next, { ch with registers := regs })

/-! ## Dispatch (Chip8::run, lines 405-466) -/

-- Gets the last three nibbles of an instruction (chip8.rs get_nnn)
def get_nnn (b1 b2 : Nat) : Nat :=
  (b1 * 0x0100 + b2) &&& 0x0FFF

/-- Lifts an infallible opcode into the dispatch result type. -/
def opOk (r : OpResult) : Option (Except ChipError OpResult) :=
  some (Except.ok r)

/-- Lifts a panicking-but-not-Err opcode into the dispatch result type. -/
def opPanic (r : Option OpResult) : Option (Except ChipError OpResult) :=
  r.map Except.ok

def Chip8.run (ch : Chip8) (b1 b2 key_input : Nat) : Option (Except ChipError OpResult) :=
  let top_b1 := b1 >>> 4
  let bottom_b1 := b1 &&& 0x0F
  let top_b2 := b2 >>> 4
  let bottom_b2 := b2 &&& 0x0F
  match top_b1 with
  | 0x0 =>
    match b2 with
    | 0xE0 => opOk ch.op_cls
    | 0xEE => ch.op_ret
    | _ => some (Except.error (ChipError.BadOperationError b1 b2))
  | 0x1 => opOk (ch.op_jp (get_nnn b1 b2))
  | 0x2 => ch.op_call (get_nnn b1 b2)
  | 0x3 => opOk (ch.op_se bottom_b1 b2)
  | 0x4 => opOk (ch.op_sne bottom_b1 b2)
  | 0x5 =>
    match bottom_b2 with
    | 0x0 => opOk (ch.op_se_reg bottom_b1 top_b2)
    | _ => some (Except.error (ChipError.BadOperationError b1 b2))
  | 0x6 => opOk (ch.op_ld bottom_b1 b2)
  | 0x7 => opOk (ch.op_add bottom_b1 b2)
  | 0x8 =>
    match bottom_b2 with
    | 0x0 => opOk (ch.op_ld_reg bottom_b1 top_b2)
    | 0x1 => opOk (ch.op_or bottom_b1 top_b2)
    | 0x2 => opOk (ch.op_and bottom_b1 top_b2)
    | 0x3 => opOk (ch.op_xor bottom_b1 top_b2)
    | 0x4 => opOk (ch.op_add_reg bottom_b1 top_b2)
    | 0x5 => opOk (ch.op_sub_reg bottom_b1 top_b2)
    | 0x6 => opOk (ch.op_shr bottom_b1)
    | 0x7 => opOk (ch.op_subn_reg bottom_b1 top_b2)
    | 0xE => opOk (ch.op_shl bottom_b1)
    | _ => some (Except.error (ChipError.BadOperationError b1 b2))
  | 0x9 =>
    match bottom_b2 with
    | 0x0 => opOk (ch.op_sne_reg bottom_b1 top_b2)
    | _ => some (Except.error (ChipError.BadOperationError b1 b2))
  | 0xA => opOk (ch.op_ld_i (get_nnn b1 b2))
  | 0xB => opOk (ch.op_jp_v0 (get_nnn b1 b2))
  | 0xC => opOk (ch.op_rnd bottom_b1 b2)
  | 0xD => opPanic (ch.op_drw bottom_b1 top_b2 bottom_b2)
  | 0xE =>
    match b2 with
    | 0x9E => opPanic (ch.op_skp bottom_b1 key_input)
    | 0xA1 => opPanic (ch.op_sknp bottom_b1 key_input)
    | _ => some (Except.error (ChipError.BadOperationError b1 b2))
  | 0xF =>
    match b2 with
    | 0x07 => opOk (ch.op_ld_vx_dt bottom_b1)
    | 0x0A => opOk (ch.op_key_wait bottom_b1)
    | 0x15 => opOk (ch.op_ld_dt_vx bottom_b1)
    | 0x18 => opOk (ch.op_ld_st_vx bottom_b1)
    | 0x1E => opOk (ch.op_add_i_vx bottom_b1)
    | 0x29 => opOk (ch.op_ld_f_vx bottom_b1)
    | 0x33 => opPanic (ch.op_ld_b_vx bottom_b1)
    | 0x55 => opPanic (ch.op_ld_i_vx bottom_b1)
    | 0x65 => opPanic (ch.op_ld_vx_i bottom_b1)
    | _ => some (Except.error (ChipError.BadOperationError b1 b2))
  | _ => some (Except.error (ChipError.BadOperationError b1 b2))

/-! ## Tick (Chip8::tick, lines 468-482) -/

def Chip8.tick (ch : Chip8) (key_input : Nat) : Option (Except ChipError Chip8) :=
  if MEMORY_SIZE - INSTRUCTION_SIZE < ch.pc then
    some (Except.error (ChipError.ProgramCounterError ch.pc))
  else
    match ch.run (ch.memory ch.pc) (ch.memory (ch.pc + 1)) key_input with
    | none => none
    | some (Except.error e) => some (Except.error e)
    | some (Except.ok (pcc, ch')) =>
      some (Except.ok (
        match pcc with
        | ProgramCounterControl.Next => { ch' with pc := ch'.pc + INSTRUCTION_SIZE }
        | ProgramCounterControl.Skip => { ch' with pc := ch'.pc + 2 * INSTRUCTION_SIZE }
        | ProgramCounterControl.Jump addr => { ch' with pc := addr }))

/-- Iterated ticks with a fixed key bitmask (errors and panics stop the run). -/
def Chip8.tickN (ch : Chip8) (key_input : Nat) : Nat → Option (Except ChipError Chip8)
  | 0 => some (Except.ok ch)
  | n + 1 =>
    match ch.tick key_input with
    | some (Except.ok ch') => ch'.tickN key_input n
    | other => other

/-! ## Frame step (Chip8::frame, lines 485-494) -/

def Chip8.frame (ch : Chip8) : Chip8 :=
  let dt' := if 0 < ch.dt then ch.dt - 1 else ch.dt
  let st' := if 0 < ch.st then ch.st - 1 else ch.st
  { ch with display_changed := false, dt := dt', st := st',
            sound_playing := decide (0 < st') }

/-! ## Keypad resolver (Chip8::keypad_press, lines 496-504, and
get_lowest_bit_pos, lines 515-522) -/

-- `for i in 0..16 { if num & (1 << i) > 0 { return Some(i) } }`
-- (the 16-iteration loop is modelled with a structural iteration count)
def lowestBitAux (num : Nat) : Nat → Nat → Option Nat
  | _, 0 => none
  | i, fuel + 1 =>
    if num &&& (1 <<< i) > 0 then some i else lowestBitAux num (i + 1) fuel

def get_lowest_bit_pos (num : Nat) : Option Nat :=
  lowestBitAux num 0 16

def Chip8.keypad_press (ch : Chip8) (key_press : Nat) : Chip8 :=
  if ch.keypad_waiting then
    match get_lowest_bit_pos key_press with
    | some bit =>
        { ch with keypad_waiting := false,
                  registers := updFn ch.registers ch.keypad_reg bit }
    | none => ch
  else ch

/-! ## Concrete instances used for evaluation -/

/-- All-zero stand-in for the unknown font table content. -/
def font0 : Nat → Nat := fun _ => 0

/-- Constant stand-in for the injected random stream. -/
def rng0 : Nat → Nat := fun _ => 0

/-- A freshly constructed machine. -/
def chInit : Chip8 := Chip8.new font0 rng0

/-- Boolean observer of a tick result: `p` holds of a successful new state. -/
def obsOk (r : Option (Except ChipError Chip8)) (p : Chip8 → Bool) : Bool :=
  match r with
  | some (Except.ok c) => p c
  | _ => false

/-! ## Program load: characterization of `Chip8::load` -/

/-- Memory after `loadAux`: bytes land at `MEMORY_OFFSET + i ..`, truncated
  at the memory bound; all other cells keep their previous content. -/
theorem loadAux_mem (bytes : List Nat) : ∀ (m : Nat → Nat) (i a : Nat),
    (loadAux m bytes i).2 a =
      if MEMORY_OFFSET + i ≤ a ∧ a < MEMORY_SIZE ∧ a - (MEMORY_OFFSET + i) < bytes.length
      then bytes.getD (a - (MEMORY_OFFSET + i)) 0
      else m a := by
  induction bytes with
  | nil =>
    intro m i a
    simp [loadAux]
  | cons b bs ih =>
    intro m i a
    have hl : (b :: bs).length = bs.length + 1 := by simp
    simp only [loadAux]
    by_cases hov : MEMORY_SIZE ≤ MEMORY_OFFSET + i
    · rw [if_pos hov, if_neg (by omega)]
    · rw [if_neg hov, ih]
      by_cases ha : a = MEMORY_OFFSET + i
      · subst ha
        rw [if_neg (by omega), if_pos (by omega)]
        simp [updFn]
      · by_cases hin : MEMORY_OFFSET + i ≤ a ∧ a < MEMORY_SIZE ∧
            a - (MEMORY_OFFSET + i) < (b :: bs).length
        · rw [if_pos (by omega), if_pos hin]
          have hk : a - (MEMORY_OFFSET + i) = (a - (MEMORY_OFFSET + (i + 1))) + 1 := by omega
          rw [hk, List.getD_cons_succ]
        · rw [if_neg (by omega), if_neg hin]
          simp [updFn, ha]

/-- Status of `loadAux`: overflow error iff some byte would land past the
  end of memory. -/
theorem loadAux_status (bytes : List Nat) : ∀ (m : Nat → Nat) (i : Nat),
    (loadAux m bytes i).1 =
      if bytes ≠ [] ∧ MEMORY_SIZE < MEMORY_OFFSET + i + bytes.length
      then Except.error ChipError.MemoryOverflowError
      else Except.ok () := by
  induction bytes with
  | nil =>
    intro m i
    simp [loadAux]
  | cons b bs ih =>
    intro m i
    have hl : (b :: bs).length = bs.length + 1 := by simp
    simp only [loadAux]
    by_cases hov : MEMORY_SIZE ≤ MEMORY_OFFSET + i
    · rw [if_pos hov, if_pos ⟨by simp, by omega⟩]
    · rw [if_neg hov, ih]
      rcases Decidable.em (bs = []) with hbs | hbs
      · subst hbs
        rw [if_neg (by simp), if_neg (by simp at hl ⊢; omega)]
      · by_cases hlen : MEMORY_SIZE < MEMORY_OFFSET + i + (b :: bs).length
        · rw [if_pos ⟨hbs, by omega⟩, if_pos ⟨by simp, by omega⟩]
        · rw [if_neg (by push_neg; intro _; omega), if_neg (by push_neg; intro _; omega)]

/-- Projections of `Chip8.load` (definitional). -/
theorem load_fst (ch : Chip8) (bytes : List Nat) :
    (ch.load bytes).1 = (loadAux ch.memory bytes 0).1 := rfl

/-- Memory after `Chip8.load` (definitional). -/
theorem load_mem (ch : Chip8) (bytes : List Nat) :
    (ch.load bytes).2.memory = (loadAux ch.memory bytes 0).2 := rfl

/-- **C1** counterexample: loading 3585 bytes (one more than the 3584-byte
capacity above 0x200) fails with the memory-overflow error, yet the byte at
0x200 has been overwritten (0 before the load, 7 after), so the load is not
all-or-nothing as the claim states. -/
theorem c1_counterexample :
    (chInit.load (List.replicate 3585 7)).1 = Except.error ChipError.MemoryOverflowError ∧
    (chInit.load (List.replicate 3585 7)).2.memory 0x200 = 7 ∧
    chInit.memory 0x200 = 0 := by
  have hms : MEMORY_SIZE = 4096 := rfl
  have hmo : MEMORY_OFFSET = 512 := rfl
  have hlen : (List.replicate 3585 (7 : Nat)).length = 3585 := List.length_replicate 3585 7
  have hne : List.replicate 3585 (7 : Nat) ≠ [] := by
    intro hn
    rw [hn] at hlen
    exact absurd hlen (by decide)
  refine ⟨?_, ?_, by decide⟩
  · rw [load_fst, loadAux_status, if_pos ⟨hne, by omega⟩]
  · rw [load_mem, loadAux_mem, if_pos (by omega)]
    have hidx : 0x200 - (MEMORY_OFFSET + 0) = 0 := by omega
    rw [hidx, show (3585 : Nat) = 3584 + 1 from rfl, List.replicate_succ,
        List.getD_cons_zero]

/-- **C1** (amended): a byte sequence that fits (length ≤ 3584) is written
in full starting at 0x200 and the load succeeds, leaving all other memory
unchanged; a sequence that does not fit fails with the memory-overflow
error, but only after the 3584 bytes up to the end of memory have already
been written (the load is incremental, not all-or-nothing); memory outside
the load region is never touched. -/
theorem c1_load (ch : Chip8) (bytes : List Nat) :
    (bytes.length ≤ MEMORY_SIZE - MEMORY_OFFSET →
      (ch.load bytes).1 = Except.ok () ∧
      (∀ i, i < bytes.length →
        (ch.load bytes).2.memory (MEMORY_OFFSET + i) = bytes.getD i 0) ∧
      (∀ a, a < MEMORY_OFFSET ∨ MEMORY_OFFSET + bytes.length ≤ a →
        (ch.load bytes).2.memory a = ch.memory a)) ∧
    (MEMORY_SIZE - MEMORY_OFFSET < bytes.length →
      (ch.load bytes).1 = Except.error ChipError.MemoryOverflowError ∧
      (∀ i, i < MEMORY_SIZE - MEMORY_OFFSET →
        (ch.load bytes).2.memory (MEMORY_OFFSET + i) = bytes.getD i 0) ∧
      (∀ a, a < MEMORY_OFFSET ∨ MEMORY_SIZE ≤ a →
        (ch.load bytes).2.memory a = ch.memory a)) := by
  have hms : MEMORY_SIZE = 4096 := rfl
  have hmo : MEMORY_OFFSET = 512 := rfl
  constructor
  · intro hlen
    refine ⟨?_, ?_, ?_⟩
    · rw [load_fst, loadAux_status, if_neg (by push_neg; intro _; omega)]
    · intro i hi
      rw [load_mem, loadAux_mem, if_pos (by omega)]
      have hidx : MEMORY_OFFSET + i - (MEMORY_OFFSET + 0) = i := by omega
      rw [hidx]
    · intro a ha
      rw [load_mem, loadAux_mem, if_neg (by omega)]
  · intro hlen
    have hne : bytes ≠ [] := by
      intro h
      subst h
      simp at hlen
    refine ⟨?_, ?_, ?_⟩
    · rw [load_fst, loadAux_status, if_pos ⟨hne, by omega⟩]
    · intro i hi
      rw [load_mem, loadAux_mem, if_pos (by omega)]
      have hidx : MEMORY_OFFSET + i - (MEMORY_OFFSET + 0) = i := by omega
      rw [hidx]
    · intro a ha
      rw [load_mem, loadAux_mem, if_neg (by omega)]

/-! ## Stack discipline (C2) -/

/-- Does a `stack_pop` result carry the `EmptyStackError`? -/
def popIsEmptyErr (r : Option (Except ChipError (Nat × Chip8))) : Bool :=
  match r with
  | some (Except.error e) => decide (e = ChipError.EmptyStackError)
  | _ => false

/-- Fresh machine loaded with a single `00EE` (RET) instruction. -/
def c2RetState : Chip8 := (chInit.load [0x00, 0xEE]).2

/-- Fresh machine loaded with a single self-call `2200` at 0x200. -/
def c2CallState : Chip8 := (chInit.load [0x22, 0x00]).2

/-- **C2** (code bug): on the initial state (`sp = 0`) a return with no
matching call does NOT fail with `EmptyStackError`: the pop reads stack
slot 0 (content 0), jumps there, and wraps `sp` to 0xFF — the claimed
error only appears on the second unmatched return.  Nested calls do not
reach a 17th-call `FullStackError` either: the 16th call already writes
`stack[16]`, out of bounds of the 16-entry array (a Rust panic, `none` in
the model), after 15 calls have pushed to slots 1..15. -/
theorem c2_stack_bug :
    obsOk (c2RetState.tick 0) (fun c => (c.pc == 0) && (c.sp == 255)) = true ∧
    obsOk (c2RetState.tick 0) (fun c => popIsEmptyErr c.stack_pop) = true ∧
    obsOk (c2CallState.tickN 0 15) (fun c => c.sp == 15) = true ∧
    (c2CallState.tickN 0 16).isNone = true := by
  refine ⟨by decide, by decide, by decide, by decide⟩

/-! ## Arithmetic flag semantics (C4, C5) -/

/-- Demonstration state: `V0 = 200`, `V1 = 100`, other registers 0. -/
def demoSt : Chip8 :=
  { chInit with registers := updFn (updFn chInit.registers 0 200) 1 100 }

/-- **C4**: for every pair of 8-bit register values, the register-to-register
add (`8xy4`) stores the sum wrapped modulo 256 in the destination register
and sets VF to 1 iff the true mathematical sum is at least 256, else 0
(destination distinct from VF, which carries the flag output). -/
theorem c4_add_reg (ch : Chip8) (reg1 reg2 : Nat)
    (h1 : ch.registers reg1 < 256) (h2 : ch.registers reg2 < 256)
    (hne : reg1 ≠ REG_VF) :
    ((ch.op_add_reg reg1 reg2).2.registers reg1 =
        (ch.registers reg1 + ch.registers reg2) % 256) ∧
    ((ch.op_add_reg reg1 reg2).2.registers REG_VF =
        if 256 ≤ ch.registers reg1 + ch.registers reg2 then 1 else 0) := by
  constructor
  · simp [Chip8.op_add_reg, updFn, hne]
  · simp [Chip8.op_add_reg, updFn]

/-- Witness for `c4_add_reg`: 200 + 100 = 300 wraps to 44 with carry set. -/
theorem c4_witness :
    demoSt.registers 0 < 256 ∧ demoSt.registers 1 < 256 ∧ (0 : Nat) ≠ REG_VF ∧
    (((demoSt.op_add_reg 0 1).2.registers 0 =
        (demoSt.registers 0 + demoSt.registers 1) % 256) ∧
     ((demoSt.op_add_reg 0 1).2.registers REG_VF =
        if 256 ≤ demoSt.registers 0 + demoSt.registers 1 then 1 else 0)) :=
  ⟨by decide, by decide, by decide,
   c4_add_reg demoSt 0 1 (by decide) (by decide) (by decide)⟩

/-- **C5**: register subtract (`8xy5`, `reg1 -= reg2`) and reverse subtract
(`8xy7`, `reg1 := reg2 - reg1`) store the difference wrapped modulo 256 and
set VF to 1 iff the minuend is at least the subtrahend (no borrow, equality
included), else 0. -/
theorem c5_sub_flags (ch : Chip8) (reg1 reg2 : Nat)
    (h1 : ch.registers reg1 < 256) (h2 : ch.registers reg2 < 256)
    (hne : reg1 ≠ REG_VF) :
    (((ch.op_sub_reg reg1 reg2).2.registers reg1 : Int) =
        ((ch.registers reg1 : Int) - (ch.registers reg2 : Int)) % 256) ∧
    ((ch.op_sub_reg reg1 reg2).2.registers REG_VF =
        if ch.registers reg2 ≤ ch.registers reg1 then 1 else 0) ∧
    (((ch.op_subn_reg reg1 reg2).2.registers reg1 : Int) =
        ((ch.registers reg2 : Int) - (ch.registers reg1 : Int)) % 256) ∧
    ((ch.op_subn_reg reg1 reg2).2.registers REG_VF =
        if ch.registers reg1 ≤ ch.registers reg2 then 1 else 0) := by
  refine ⟨?_, ?_, ?_, ?_⟩
  · simp [Chip8.op_sub_reg, updFn, hne]
    omega
  · simp [Chip8.op_sub_reg, updFn]
    split_ifs <;> omega
  · simp [Chip8.op_subn_reg, updFn, hne]
    omega
  · simp [Chip8.op_subn_reg, updFn]
    split_ifs <;> omega

/-- Witness for `c5_sub_flags`: 200 - 100 = 100 with VF = 1 (no borrow);
100 - 200 wraps to 156 with VF = 0 (borrow). -/
theorem c5_witness :
    demoSt.registers 0 < 256 ∧ demoSt.registers 1 < 256 ∧ (0 : Nat) ≠ REG_VF ∧
    ((((demoSt.op_sub_reg 0 1).2.registers 0 : Int) =
        ((demoSt.registers 0 : Int) - (demoSt.registers 1 : Int)) % 256) ∧
     ((demoSt.op_sub_reg 0 1).2.registers REG_VF =
        if demoSt.registers 1 ≤ demoSt.registers 0 then 1 else 0) ∧
     (((demoSt.op_subn_reg 0 1).2.registers 0 : Int) =
        ((demoSt.registers 1 : Int) - (demoSt.registers 0 : Int)) % 256) ∧
     ((demoSt.op_subn_reg 0 1).2.registers REG_VF =
        if demoSt.registers 0 ≤ demoSt.registers 1 then 1 else 0)) :=
  ⟨by decide, by decide, by decide,
   c5_sub_flags demoSt 0 1 (by decide) (by decide) (by decide)⟩

/-! ## Frame step (C8) -/

/-- **C8**: one frame step clears `display_changed`, decrements each timer
by 1 if nonzero (never below 0, captured by truncated subtraction), sets
`sound_playing` iff the sound timer is nonzero after the decrement, and
modifies no other state field (no opcode executes). -/
theorem c8_frame (ch : Chip8) :
    (ch.frame.display_changed = false) ∧
    (ch.frame.dt = ch.dt - 1) ∧
    (ch.frame.st = ch.st - 1) ∧
    (ch.frame.sound_playing = true ↔ 1 < ch.st) ∧
    (ch.frame.memory = ch.memory) ∧
    (ch.frame.registers = ch.registers) ∧
    (ch.frame.stack = ch.stack) ∧
    (ch.frame.frame_buffer = ch.frame_buffer) ∧
    (ch.frame.sp = ch.sp) ∧
    (ch.frame.ir = ch.ir) ∧
    (ch.frame.pc = ch.pc) ∧
    (ch.frame.rng_i = ch.rng_i) ∧
    (ch.frame.keypad_waiting = ch.keypad_waiting) ∧
    (ch.frame.keypad_reg = ch.keypad_reg) := by
  refine ⟨rfl, ?_, ?_, ?_, rfl, rfl, rfl, rfl, rfl, rfl, rfl, rfl, rfl, rfl⟩
  · simp only [Chip8.frame]
    split_ifs <;> omega
  · simp only [Chip8.frame]
    split_ifs <;> omega
  · simp only [Chip8.frame]
    split_ifs <;> simp <;> omega

/-! ## Keypad skip opcodes (C10) -/

/-- A bit test through mask-and-shift equals `Nat.testBit`. -/
theorem and_one_shift_pos (key v : Nat) : 0 < key &&& (1 <<< v) ↔ key.testBit v := by
  rw [Nat.shiftLeft_eq, one_mul, Nat.and_two_pow]
  cases h : key.testBit v <;> simp

/-- **C10**: `Ex9E`/`ExA1` shift by the full 8-bit register value over a
16-bit mask, so they are well-defined exactly when the register value is
below 16 (then they skip according to the tested key bit); for any register
value of 16 or more the shift exceeds the bitmask width and the operation
is not total (a shift-overflow panic, `none`). -/
theorem c10_skp_shift (ch : Chip8) (reg key : Nat) :
    (ch.registers reg < 16 →
      ((ch.op_skp reg key).map Prod.fst =
        some (if key.testBit (ch.registers reg) then ProgramCounterControl.Skip
              else ProgramCounterControl.Next)) ∧
      ((ch.op_sknp reg key).map Prod.fst =
        some (if key.testBit (ch.registers reg) then ProgramCounterControl.Next
              else ProgramCounterControl.Skip))) ∧
    (16 ≤ ch.registers reg →
      ch.op_skp reg key = none ∧ ch.op_sknp reg key = none) := by
  constructor
  · intro hlt
    constructor
    · simp only [Chip8.op_skp, if_pos hlt]
      rcases h : key.testBit (ch.registers reg) with _ | _
      · have : ¬ 0 < key &&& (1 <<< ch.registers reg) := by
          rw [and_one_shift_pos, h]
          simp
        simp [this, h]
      · have : 0 < key &&& (1 <<< ch.registers reg) := by
          rw [and_one_shift_pos, h]
        simp [this, h, Nat.pos_iff_ne_zero.mp this]
    · simp only [Chip8.op_sknp, if_pos hlt]
      rcases h : key.testBit (ch.registers reg) with _ | _
      · have : key &&& (1 <<< ch.registers reg) = 0 := by
          have := (and_one_shift_pos key (ch.registers reg)).not
          simp [h] at this
          omega
        simp [this, h]
      · have : ¬ key &&& (1 <<< ch.registers reg) = 0 := by
          have := (and_one_shift_pos key (ch.registers reg)).mpr (by rw [h])
          omega
        simp [this, h]
  · intro hge
    constructor
    · simp [Chip8.op_skp]
      omega
    · simp [Chip8.op_sknp]
      omega

/-- Witness for `c10_skp_shift`: key 5 held (`mask 0x20`), `V0 = 5` skips;
a register value of 16 panics. -/
theorem c10_witness :
    ((chInit.op_ld 0 5).2.registers 0 < 16 ∧
      (((chInit.op_ld 0 5).2.op_skp 0 0x20).map Prod.fst =
        some (if (0x20 : Nat).testBit ((chInit.op_ld 0 5).2.registers 0)
              then ProgramCounterControl.Skip else ProgramCounterControl.Next))) ∧
    (16 ≤ (chInit.op_ld 0 16).2.registers 0 ∧
      (chInit.op_ld 0 16).2.op_skp 0 0x20 = none) :=
  ⟨⟨by decide, ((c10_skp_shift (chInit.op_ld 0 5).2 0 0x20).1 (by decide)).1⟩,
   ⟨by decide, ((c10_skp_shift (chInit.op_ld 0 16).2 0 0x20).2 (by decide)).1⟩⟩

/-! ## Memory-access bounds during execution (C3) -/

/-- A draw-loop inner step never fails when the row coordinate is in
range: the framebuffer index is always within the 256-byte buffer. -/
theorem drawBit_isSome (xpos cur_y memory_byte bit : Nat)
    (hy : cur_y < SCREEN_HEIGHT) (acc : (Nat → Nat) × Bool) :
    (drawBit xpos cur_y memory_byte bit acc).isSome = true := by
  simp only [drawBit]
  by_cases hb : memory_byte &&& (1 <<< (7 - bit)) > 0
  · rw [if_pos hb]
    have hx : (xpos + bit) % SCREEN_WIDTH < 64 := Nat.mod_lt _ (by norm_num)
    have hy64 : cur_y < 32 := hy
    have hlt : (cur_y * SCREEN_WIDTH + (xpos + bit) % SCREEN_WIDTH) / 8 <
        FRAME_BUFFER_SIZE := by
      show (cur_y * 64 + (xpos + bit) % 64) / 8 < 256
      omega
    rw [if_pos hlt]
    rfl
  · rw [if_neg hb]
    rfl

/-- A sprite row succeeds exactly when its memory read is in bounds. -/
theorem drawRow_isSome (mem : Nat → Nat) (ir xpos ypos row : Nat)
    (acc : (Nat → Nat) × Bool) :
    (drawRow mem ir xpos ypos row acc).isSome = true ↔ ir + row < MEMORY_SIZE := by
  rw [drawRow, readMem]
  by_cases h : ir + row < MEMORY_SIZE
  · rw [if_pos h]
    simp only [h, iff_true]
    have hy : (ypos + row) % SCREEN_HEIGHT < 32 := Nat.mod_lt _ (by norm_num)
    have : ∀ (l : List Nat) (a : (Nat → Nat) × Bool),
        (l.foldlM (fun a bit => drawBit xpos ((ypos + row) % SCREEN_HEIGHT)
          (mem (ir + row)) bit a) a).isSome = true := by
      intro l
      induction l with
      | nil =>
        intro a
        rfl
      | cons x xs ih =>
        intro a
        rw [List.foldlM_cons]
        rcases hx : drawBit xpos ((ypos + row) % SCREEN_HEIGHT) (mem (ir + row)) x a
          with _ | a'
        · have := drawBit_isSome xpos _ (mem (ir + row)) x hy a
          rw [hx] at this
          exact absurd this (by simp)
        · simpa [hx] using ih a'
    exact this (List.range 8) acc
  · rw [if_neg h]
    simpa using h

/-- A left fold of checked operations at consecutive addresses
`ir, ir+1, ...` succeeds exactly when the whole address range is in
bounds. -/
theorem foldlM_checked_isSome {β : Type} (g : β → Nat → Option β) (ir bound : Nat)
    (hg : ∀ (b : β) (ind : Nat), (g b ind).isSome = true ↔ ir + ind < bound) :
    ∀ (k : Nat) (b : β),
      ((List.range k).foldlM g b).isSome = true ↔ (k = 0 ∨ ir + k ≤ bound) := by
  intro k
  induction k with
  | zero =>
    intro b
    simp
  | succ n ih =>
    intro b
    rw [List.range_succ, List.foldlM_append]
    rcases hpre : (List.range n).foldlM g b with _ | b'
    · have h1 : ¬(n = 0 ∨ ir + n ≤ bound) := by
        intro hc
        have h2 := (ih b).mpr hc
        rw [hpre] at h2
        exact absurd h2 (by simp)
      simp
      omega
    · have h1 : n = 0 ∨ ir + n ≤ bound := (ih b).mp (by rw [hpre]; rfl)
      rcases hgn : g b' n with _ | b2
      · have h2 := hg b' n
        rw [hgn] at h2
        simp only [Option.isSome_none, Bool.false_eq_true, false_iff] at h2
        simp [List.foldlM_cons, hgn]
        omega
      · have h2 := hg b' n
        rw [hgn] at h2
        simp only [Option.isSome_some, true_iff] at h2
        simp [List.foldlM_cons, hgn]
        omega

/-- The draw opcode succeeds exactly when the N sprite-byte reads starting
at the index register stay within memory. -/
theorem op_drw_isSome (ch : Chip8) (regx regy n : Nat) :
    (ch.op_drw regx regy n).isSome = true ↔ (n = 0 ∨ ch.ir + n ≤ MEMORY_SIZE) := by
  have hfold := foldlM_checked_isSome
    (fun acc row => drawRow ch.memory ch.ir (ch.registers regx) (ch.registers regy) row acc)
    ch.ir MEMORY_SIZE
    (fun acc row => drawRow_isSome ch.memory ch.ir _ _ row acc) n
    (ch.frame_buffer, false)
  rw [Chip8.op_drw]
  rcases hf : (List.range n).foldlM
      (fun acc row => drawRow ch.memory ch.ir (ch.registers regx) (ch.registers regy) row acc)
      (ch.frame_buffer, false) with _ | acc
  · rw [hf] at hfold
    simp only [Option.isSome_none, Bool.false_eq_true, false_iff] at hfold
    simp only [Option.isSome_none, Bool.false_eq_true, false_iff]
    exact hfold
  · rw [hf] at hfold
    simp only [Option.isSome_some, true_iff] at hfold
    simp only [hfold, iff_true]
    rfl

/-- The BCD store succeeds exactly when its three memory writes at
`ir`, `ir+1`, `ir+2` are all in bounds. -/
theorem op_ld_b_vx_isSome (ch : Chip8) (reg : Nat) :
    (ch.op_ld_b_vx reg).isSome = true ↔ ch.ir + 3 ≤ MEMORY_SIZE := by
  rw [Chip8.op_ld_b_vx]
  by_cases h1 : ch.ir < MEMORY_SIZE
  · by_cases h2 : ch.ir + 1 < MEMORY_SIZE
    · by_cases h3 : ch.ir + 2 < MEMORY_SIZE
      · simp [writeMem, h1, h2, h3]
        omega
      · simp [writeMem, h1, h2, h3]
        omega
    · simp [writeMem, h1, h2]
      omega
  · simp [writeMem, h1]
    omega

/-- The block register store (`Fx55`) succeeds exactly when all writes at
`ir .. ir+x` are in bounds. -/
theorem op_ld_i_vx_isSome (ch : Chip8) (reg : Nat) :
    (ch.op_ld_i_vx reg).isSome = true ↔ ch.ir + reg + 1 ≤ MEMORY_SIZE := by
  have hfold := foldlM_checked_isSome
    (fun m ind => writeMem m (ch.ir + ind) (ch.registers ind)) ch.ir MEMORY_SIZE
    (fun m ind => by
      simp only [writeMem]
      by_cases h : ch.ir + ind < MEMORY_SIZE
      · simp [h]
      · simp [h])
    (reg + 1) ch.memory
  rw [Chip8.op_ld_i_vx]
  rcases hf : (List.range (reg + 1)).foldlM
      (fun m ind => writeMem m (ch.ir + ind) (ch.registers ind)) ch.memory with _ | m
  · rw [hf] at hfold
    simp only [Option.isSome_none, Bool.false_eq_true, false_iff] at hfold ⊢
    omega
  · rw [hf] at hfold
    simp only [Option.isSome_some, true_iff] at hfold
    simp only [Option.isSome_some, true_iff]
    omega

/-- The block register load (`Fx65`) succeeds exactly when all reads at
`ir .. ir+x` are in bounds. -/
theorem op_ld_vx_i_isSome (ch : Chip8) (reg : Nat) :
    (ch.op_ld_vx_i reg).isSome = true ↔ ch.ir + reg + 1 ≤ MEMORY_SIZE := by
  have hfold := foldlM_checked_isSome
    (fun regs ind => (readMem ch.memory (ch.ir + ind)).map (fun v => updFn regs ind v))
    ch.ir MEMORY_SIZE
    (fun regs ind => by
      simp only [readMem]
      by_cases h : ch.ir + ind < MEMORY_SIZE
      · simp [h]
      · simp [h])
    (reg + 1) ch.registers
  rw [Chip8.op_ld_vx_i]
  rcases hf : (List.range (reg + 1)).foldlM
      (fun regs ind => (readMem ch.memory (ch.ir + ind)).map (fun v => updFn regs ind v))
      ch.registers with _ | regs
  · rw [hf] at hfold
    simp only [Option.isSome_none, Bool.false_eq_true, false_iff] at hfold ⊢
    omega
  · rw [hf] at hfold
    simp only [Option.isSome_some, true_iff] at hfold
    simp only [Option.isSome_some, true_iff]
    omega

/-- Program that sets `I := 0xFFF` (`AFFF`) then draws two sprite rows
(`D012`), making the second sprite read index memory address 4096. -/
def c3State : Chip8 := (chInit.load [0xAF, 0xFF, 0xD0, 0x12]).2

/-- **C3** counterexample: from a freshly loaded, reachable program state,
the first tick succeeds (setting `I = 0xFFF`) and the second tick performs
a sprite read at address `0xFFF + 1 = 4096`, out of the 4096-byte memory
(a Rust index panic, `none`) — so not every memory access of a tick
resolves within bounds for every reachable index-register value. -/
theorem c3_counterexample :
    (c3State.tickN 0 1).isNone = false ∧ (c3State.tickN 0 2).isNone = true := by
  refine ⟨by decide, by decide⟩

/-- **C3** (amended): the execution-time memory accesses of the draw,
BCD-store and block store/load opcodes resolve within the 4096-byte
memory exactly when the index register plus the opcode's access span
stays within bounds (the draw's framebuffer writes are always in
bounds); for reachable states with `I` near the top of memory these
opcodes index out of bounds instead of resolving within bounds. -/
theorem c3_memory_bounds (ch : Chip8) (regx regy n reg : Nat) :
    ((ch.op_drw regx regy n).isSome = true ↔ (n = 0 ∨ ch.ir + n ≤ MEMORY_SIZE)) ∧
    ((ch.op_ld_b_vx reg).isSome = true ↔ ch.ir + 3 ≤ MEMORY_SIZE) ∧
    ((ch.op_ld_i_vx reg).isSome = true ↔ ch.ir + reg + 1 ≤ MEMORY_SIZE) ∧
    ((ch.op_ld_vx_i reg).isSome = true ↔ ch.ir + reg + 1 ≤ MEMORY_SIZE) :=
  ⟨op_drw_isSome ch regx regy n, op_ld_b_vx_isSome ch reg,
   op_ld_i_vx_isSome ch reg, op_ld_vx_i_isSome ch reg⟩

/-! ## Draw characterization (C6, C7)

`drawBitP`/`drawRowP` are the pure (check-free) counterparts of the draw
loop bodies, used to state what `op_drw` computes; `getPixel` reads one
logical pixel out of the packed framebuffer exactly as `op_drw` addresses
it. -/

def getPixel (fb : Nat → Nat) (x y : Nat) : Bool :=
  (fb ((y * SCREEN_WIDTH + x) / 8)).testBit (7 - x % 8)

def drawBitP (xpos cur_y memory_byte bit : Nat) (acc : (Nat → Nat) × Bool) :
    (Nat → Nat) × Bool :=
  if memory_byte &&& (1 <<< (7 - bit)) > 0 then
    let cur_x := (xpos + bit) % SCREEN_WIDTH
    let display_byte_index := (cur_y * SCREEN_WIDTH + cur_x) / 8
    let display_mask := 1 <<< (7 - cur_x % 8)
    (updFn acc.1 display_byte_index (acc.1 display_byte_index ^^^ display_mask),
     if acc.1 display_byte_index &&& display_mask > 0 then true else acc.2)
  else acc

/-- The first `k` bits of one pure row step. -/
def bitsFold (xpos cur_y memory_byte k : Nat) (acc : (Nat → Nat) × Bool) :
    (Nat → Nat) × Bool :=
  (List.range k).foldl (fun a bit => drawBitP xpos cur_y memory_byte bit a) acc

def drawRowP (mem : Nat → Nat) (ir xpos ypos row : Nat) (acc : (Nat → Nat) × Bool) :
    (Nat → Nat) × Bool :=
  bitsFold xpos ((ypos + row) % SCREEN_HEIGHT) (mem (ir + row)) 8 acc

/-- The first `k` pure row steps. -/
def rowsFold (mem : Nat → Nat) (ir xpos ypos k : Nat) (acc : (Nat → Nat) × Bool) :
    (Nat → Nat) × Bool :=
  (List.range k).foldl (fun a row => drawRowP mem ir xpos ypos row a) acc

/-- The full framebuffer/overlap result of a draw. -/
def drawPure (ch : Chip8) (regx regy n : Nat) : (Nat → Nat) × Bool :=
  rowsFold ch.memory ch.ir (ch.registers regx) (ch.registers regy) n
    (ch.frame_buffer, false)

/-- The machine state produced by a successful draw. -/
def drawnChip (ch : Chip8) (regx regy n : Nat) : Chip8 :=
  { ch with frame_buffer := (drawPure ch regx regy n).1,
            registers := updFn ch.registers REG_VF
              (if (drawPure ch regx regy n).2 then 1 else 0),
            display_changed := true }

/-- Does any of the first `k` sprite bits of one row land on pixel
`(px, py)`? -/
def rowCovers (memory_byte xpos cur_y k px py : Nat) : Bool :=
  (List.range k).any fun bit =>
    memory_byte.testBit (7 - bit) && (px == (xpos + bit) % SCREEN_WIDTH) && (py == cur_y)

/-- Does any set bit of the first `k` sprite rows land on pixel `(px, py)`? -/
def spriteCovers (mem : Nat → Nat) (ir xpos ypos k px py : Nat) : Bool :=
  (List.range k).any fun row =>
    rowCovers (mem (ir + row)) xpos ((ypos + row) % SCREEN_HEIGHT) 8 px py

/-- Does any of the first `k` sprite bits of one row hit an already-set
pixel of `fb`? -/
def rowCollides (memory_byte xpos cur_y k : Nat) (fb : Nat → Nat) : Bool :=
  (List.range k).any fun bit =>
    memory_byte.testBit (7 - bit) && getPixel fb ((xpos + bit) % SCREEN_WIDTH) cur_y

/-- Does any set sprite bit of the first `k` rows hit an already-set pixel
of `fb`? -/
def spriteCollides (mem : Nat → Nat) (ir xpos ypos k : Nat) (fb : Nat → Nat) : Bool :=
  (List.range k).any fun row =>
    rowCollides (mem (ir + row)) xpos ((ypos + row) % SCREEN_HEIGHT) 8 fb

/-- Did some pixel transition from set to unset between two framebuffers? -/
def anyToggledOff (fbOld fbNew : Nat → Nat) : Bool :=
  (List.range SCREEN_WIDTH).any fun px =>
    (List.range SCREEN_HEIGHT).any fun py =>
      getPixel fbOld px py && !(getPixel fbNew px py)

/-- With the row coordinate in range, the checked inner loop step equals
its pure counterpart. -/
theorem drawBit_eq_some (xpos cur_y memory_byte bit : Nat)
    (hy : cur_y < SCREEN_HEIGHT) (acc : (Nat → Nat) × Bool) :
    drawBit xpos cur_y memory_byte bit acc =
      some (drawBitP xpos cur_y memory_byte bit acc) := by
  simp only [drawBit, drawBitP]
  by_cases hb : memory_byte &&& (1 <<< (7 - bit)) > 0
  · rw [if_pos hb, if_pos hb]
    have hy64 : cur_y < 32 := hy
    have hlt : (cur_y * SCREEN_WIDTH + (xpos + bit) % SCREEN_WIDTH) / 8 <
        FRAME_BUFFER_SIZE := by
      show (cur_y * 64 + (xpos + bit) % 64) / 8 < 256
      omega
    rw [if_pos hlt]
  · rw [if_neg hb, if_neg hb]

/-- A fold of an Option-valued step that agrees with a pure step
computes the pure fold. -/
theorem foldlM_eq_foldl {α β : Type} (f : β → α → Option β) (g : β → α → β) :
    ∀ (l : List α), (∀ (b : β) (a : α), a ∈ l → f b a = some (g b a)) →
    ∀ b, l.foldlM f b = some (l.foldl g b) := by
  intro l
  induction l with
  | nil =>
    intro _ b
    rfl
  | cons x xs ih =>
    intro h b
    rw [List.foldlM_cons, h b x (by simp), List.foldl_cons]
    simpa using ih (fun b a ha => h b a (by simp [ha])) (g b x)

/-- With the sprite read in bounds, a checked row step equals its pure
counterpart. -/
theorem drawRow_eq_some (mem : Nat → Nat) (ir xpos ypos row : Nat)
    (h : ir + row < MEMORY_SIZE) (acc : (Nat → Nat) × Bool) :
    drawRow mem ir xpos ypos row acc = some (drawRowP mem ir xpos ypos row acc) := by
  rw [drawRow, readMem, if_pos h, drawRowP, bitsFold]
  exact foldlM_eq_foldl _ _ (List.range 8)
    (fun b a _ => drawBit_eq_some xpos ((ypos + row) % SCREEN_HEIGHT) (mem (ir + row)) a
      (Nat.mod_lt _ (by norm_num)) b) acc

/-- A draw whose sprite reads stay in bounds succeeds and produces
`drawnChip`. -/
theorem op_drw_eq (ch : Chip8) (regx regy n : Nat) (hb : ch.ir + n ≤ MEMORY_SIZE) :
    ch.op_drw regx regy n =
      some (ProgramCounterControl.Next, drawnChip ch regx regy n) := by
  rw [Chip8.op_drw]
  have hrows : (List.range n).foldlM
      (fun acc row => drawRow ch.memory ch.ir (ch.registers regx) (ch.registers regy) row acc)
      (ch.frame_buffer, false) = some (drawPure ch regx regy n) := by
    rw [drawPure, rowsFold]
    exact foldlM_eq_foldl _ _ (List.range n)
      (fun b a ha => drawRow_eq_some ch.memory ch.ir _ _ a
        (by
          have : a < n := List.mem_range.mp ha
          omega) b) _
  rw [hrows]
  rfl

/-- Toggling one pixel's bit in the packed framebuffer flips exactly that
pixel: byte index and bit index together determine the pixel. -/
theorem getPixel_toggle (fb : Nat → Nat) (cx cy px py : Nat)
    (hcx : cx < 64) (hcy : cy < 32) (hpx : px < 64) (hpy : py < 32) :
    getPixel (updFn fb ((cy * SCREEN_WIDTH + cx) / 8)
        (fb ((cy * SCREEN_WIDTH + cx) / 8) ^^^ (1 <<< (7 - cx % 8)))) px py =
      (if px = cx ∧ py = cy then !(getPixel fb px py) else getPixel fb px py) := by
  have h2 : (1 <<< (7 - cx % 8)) = 2 ^ (7 - cx % 8) := by
    rw [Nat.shiftLeft_eq, one_mul]
  simp only [getPixel, updFn, h2, SCREEN_WIDTH]
  by_cases hidx : (py * 64 + px) / 8 = (cy * 64 + cx) / 8
  · rw [if_pos hidx, Nat.testBit_xor]
    by_cases hbit : 7 - px % 8 = 7 - cx % 8
    · have hpc : px = cx := by omega
      have hyc : py = cy := by omega
      rw [if_pos ⟨hpc, hyc⟩, hidx, hbit, Nat.testBit_two_pow_self]
      simp
    · have hne : ¬(px = cx ∧ py = cy) := by
        intro hcc
        have := hcc.1
        omega
      rw [if_neg hne, hidx, Nat.testBit_two_pow_of_ne (fun h => hbit h.symm)]
      simp
  · have hne : ¬(px = cx ∧ py = cy) := by
      intro hcc
      rw [hcc.1, hcc.2] at hidx
      exact hidx rfl
    rw [if_neg hidx, if_neg hne]

/-- One-step unfolding of `bitsFold`. -/
theorem bitsFold_succ (xpos cur_y mb k : Nat) (acc : (Nat → Nat) × Bool) :
    bitsFold xpos cur_y mb (k + 1) acc =
      drawBitP xpos cur_y mb k (bitsFold xpos cur_y mb k acc) := by
  rw [bitsFold, bitsFold, List.range_succ, List.foldl_append]
  rfl

/-- One-step unfolding of `rowsFold`. -/
theorem rowsFold_succ (mem : Nat → Nat) (ir xpos ypos k : Nat) (acc : (Nat → Nat) × Bool) :
    rowsFold mem ir xpos ypos (k + 1) acc =
      drawRowP mem ir xpos ypos k (rowsFold mem ir xpos ypos k acc) := by
  rw [rowsFold, rowsFold, List.range_succ, List.foldl_append]
  rfl

/-- One-step unfolding of `rowCovers`. -/
theorem rowCovers_succ (mb xpos cur_y k px py : Nat) :
    rowCovers mb xpos cur_y (k + 1) px py =
      (rowCovers mb xpos cur_y k px py ||
        (mb.testBit (7 - k) && (px == (xpos + k) % SCREEN_WIDTH) && (py == cur_y))) := by
  rw [rowCovers, rowCovers, List.range_succ, List.any_append]
  simp

/-- One-step unfolding of `rowCollides`. -/
theorem rowCollides_succ (mb xpos cur_y k : Nat) (fb : Nat → Nat) :
    rowCollides mb xpos cur_y (k + 1) fb =
      (rowCollides mb xpos cur_y k fb ||
        (mb.testBit (7 - k) && getPixel fb ((xpos + k) % SCREEN_WIDTH) cur_y)) := by
  rw [rowCollides, rowCollides, List.range_succ, List.any_append]
  simp

/-- One-step unfolding of `spriteCovers`. -/
theorem spriteCovers_succ (mem : Nat → Nat) (ir xpos ypos k px py : Nat) :
    spriteCovers mem ir xpos ypos (k + 1) px py =
      (spriteCovers mem ir xpos ypos k px py ||
        rowCovers (mem (ir + k)) xpos ((ypos + k) % SCREEN_HEIGHT) 8 px py) := by
  rw [spriteCovers, spriteCovers, List.range_succ, List.any_append]
  simp

/-- One-step unfolding of `spriteCollides`. -/
theorem spriteCollides_succ (mem : Nat → Nat) (ir xpos ypos k : Nat) (fb : Nat → Nat) :
    spriteCollides mem ir xpos ypos (k + 1) fb =
      (spriteCollides mem ir xpos ypos k fb ||
        rowCollides (mem (ir + k)) xpos ((ypos + k) % SCREEN_HEIGHT) 8 fb) := by
  rw [spriteCollides, spriteCollides, List.range_succ, List.any_append]
  simp

/-- A sprite row never covers the pixel its own next bit targets with an
earlier bit (8 consecutive x positions are distinct modulo 64). -/
theorem rowCovers_next_false (mb xpos cur_y k : Nat) (hk : k < 64) :
    rowCovers mb xpos cur_y k ((xpos + k) % SCREEN_WIDTH) cur_y = false := by
  rw [rowCovers]
  rw [List.any_eq_false]
  intro bit hbit
  have hblt : bit < k := List.mem_range.mp hbit
  intro hcon
  simp only [Bool.and_eq_true, beq_iff_eq] at hcon
  have hx64 : (xpos + k) % 64 = (xpos + bit) % 64 := hcon.1.2
  omega

/-- A pixel covered by a row lies on that row. -/
theorem rowCovers_py (mb xpos cur_y k px py : Nat)
    (h : rowCovers mb xpos cur_y k px py = true) : py = cur_y := by
  rw [rowCovers, List.any_eq_true] at h
  obtain ⟨bit, _, hb⟩ := h
  simp only [Bool.and_eq_true, beq_iff_eq] at hb
  exact hb.2

/-- A pixel covered by the first `k` sprite rows lies on one of them. -/
theorem spriteCovers_py (mem : Nat → Nat) (ir xpos ypos k px py : Nat)
    (h : spriteCovers mem ir xpos ypos k px py = true) :
    ∃ r, r < k ∧ py = (ypos + r) % SCREEN_HEIGHT := by
  rw [spriteCovers, List.any_eq_true] at h
  obtain ⟨row, hrow, hb⟩ := h
  exact ⟨row, List.mem_range.mp hrow, rowCovers_py _ _ _ _ _ _ hb⟩

/-- Inner-loop invariant: after the first `k` bits of a row, each pixel
equals the original xor-ed with that row's coverage so far, the overlap
flag has accumulated collisions against the original framebuffer, and
bytes outside the buffer (or bits above 7) are untouched. -/
theorem bitsFold_spec (xpos cur_y mb : Nat) (hy : cur_y < SCREEN_HEIGHT) :
    ∀ (k : Nat), k ≤ 8 → ∀ (fb : Nat → Nat) (ov : Bool),
      (∀ px py, px < SCREEN_WIDTH → py < SCREEN_HEIGHT →
        getPixel (bitsFold xpos cur_y mb k (fb, ov)).1 px py =
          (getPixel fb px py ^^ rowCovers mb xpos cur_y k px py)) ∧
      ((bitsFold xpos cur_y mb k (fb, ov)).2 = (ov || rowCollides mb xpos cur_y k fb)) ∧
      (∀ i j, FRAME_BUFFER_SIZE ≤ i ∨ 8 ≤ j →
        ((bitsFold xpos cur_y mb k (fb, ov)).1 i).testBit j = (fb i).testBit j) := by
  intro k
  induction k with
  | zero =>
    intro _ fb ov
    refine ⟨?_, ?_, ?_⟩
    · intro px py _ _
      simp [bitsFold, rowCovers]
    · simp [bitsFold, rowCollides]
    · intro i j _
      simp [bitsFold]
  | succ k ih =>
    intro hk fb ov
    obtain ⟨ihpix, ihov, ihinv⟩ := ih (by omega) fb ov
    rw [bitsFold_succ]
    set S := bitsFold xpos cur_y mb k (fb, ov) with hS
    simp only [drawBitP]
    have hy32 : cur_y < 32 := hy
    have hcx : (xpos + k) % SCREEN_WIDTH < 64 := Nat.mod_lt _ (by norm_num)
    by_cases hset : mb &&& (1 <<< (7 - k)) > 0
    · rw [if_pos hset]
      have htb : mb.testBit (7 - k) = true := by
        have := (and_one_shift_pos mb (7 - k)).mp hset
        exact this
      have hcur : getPixel S.1 ((xpos + k) % SCREEN_WIDTH) cur_y =
          getPixel fb ((xpos + k) % SCREEN_WIDTH) cur_y := by
        rw [ihpix _ _ hcx hy, rowCovers_next_false mb xpos cur_y k (by omega),
            Bool.xor_false]
      refine ⟨?_, ?_, ?_⟩
      · intro px py hpx hpy
        show getPixel (updFn S.1 ((cur_y * SCREEN_WIDTH + (xpos + k) % SCREEN_WIDTH) / 8)
          (S.1 ((cur_y * SCREEN_WIDTH + (xpos + k) % SCREEN_WIDTH) / 8) ^^^
            (1 <<< (7 - ((xpos + k) % SCREEN_WIDTH) % 8)))) px py = _
        rw [getPixel_toggle S.1 ((xpos + k) % SCREEN_WIDTH) cur_y px py hcx hy32 hpx hpy]
        rw [rowCovers_succ]
        by_cases hp : px = (xpos + k) % SCREEN_WIDTH ∧ py = cur_y
        · rw [if_pos hp, ihpix px py hpx hpy, hp.1, hp.2]
          rw [rowCovers_next_false mb xpos cur_y k (by omega), htb]
          simp
        · rw [if_neg hp, ihpix px py hpx hpy]
          have hfalse : (mb.testBit (7 - k) && (px == (xpos + k) % SCREEN_WIDTH) &&
              (py == cur_y)) = false := by
            by_cases h1 : px = (xpos + k) % SCREEN_WIDTH
            · have h2 : ¬ py = cur_y := fun h => hp ⟨h1, h⟩
              simp [h2]
            · simp [h1]
          rw [hfalse, Bool.or_false]
      · show (if S.1 ((cur_y * SCREEN_WIDTH + (xpos + k) % SCREEN_WIDTH) / 8) &&&
            (1 <<< (7 - ((xpos + k) % SCREEN_WIDTH) % 8)) > 0 then true else S.2) = _
        have hiff : S.1 ((cur_y * SCREEN_WIDTH + (xpos + k) % SCREEN_WIDTH) / 8) &&&
            (1 <<< (7 - ((xpos + k) % SCREEN_WIDTH) % 8)) > 0 ↔
            getPixel S.1 ((xpos + k) % SCREEN_WIDTH) cur_y = true :=
          and_one_shift_pos _ _
        rw [rowCollides_succ, htb]
        split_ifs with hcond
        · have hgp : getPixel fb ((xpos + k) % SCREEN_WIDTH) cur_y = true := by
            rw [← hcur]
            exact hiff.mp hcond
          rw [hgp]
          simp
        · have hgp : getPixel fb ((xpos + k) % SCREEN_WIDTH) cur_y = false := by
            rw [← hcur]
            rcases h : getPixel S.1 ((xpos + k) % SCREEN_WIDTH) cur_y
            · rfl
            · exact absurd (hiff.mpr h) hcond
          rw [ihov, hgp]
          simp
      · intro i j hij
        show (updFn S.1 ((cur_y * SCREEN_WIDTH + (xpos + k) % SCREEN_WIDTH) / 8)
          (S.1 ((cur_y * SCREEN_WIDTH + (xpos + k) % SCREEN_WIDTH) / 8) ^^^
            (1 <<< (7 - ((xpos + k) % SCREEN_WIDTH) % 8))) i).testBit j = _
        by_cases hi : i = (cur_y * SCREEN_WIDTH + (xpos + k) % SCREEN_WIDTH) / 8
        · have hidx256 : (cur_y * SCREEN_WIDTH + (xpos + k) % SCREEN_WIDTH) / 8 < 256 := by
            show (cur_y * 64 + (xpos + k) % 64) / 8 < 256
            have hcx64 : (xpos + k) % 64 < 64 := Nat.mod_lt _ (by norm_num)
            omega
          have hj : 8 ≤ j := by
            rcases hij with h | h
            · exfalso
              rw [hi] at h
              have hfbs : FRAME_BUFFER_SIZE = 256 := rfl
              omega
            · exact h
          have hmask : (1 <<< (7 - ((xpos + k) % SCREEN_WIDTH) % 8)) =
              2 ^ (7 - ((xpos + k) % SCREEN_WIDTH) % 8) := by
            rw [Nat.shiftLeft_eq, one_mul]
          simp only [updFn, if_pos hi]
          rw [hmask, Nat.testBit_xor,
              Nat.testBit_two_pow_of_ne
                (by omega : 7 - ((xpos + k) % SCREEN_WIDTH) % 8 ≠ j),
              Bool.xor_false, ← hi]
          exact ihinv i j hij
        · simp only [updFn, if_neg hi]
          exact ihinv i j hij
    · rw [if_neg hset]
      have htb : mb.testBit (7 - k) = false := by
        rcases h : mb.testBit (7 - k)
        · rfl
        · exact absurd ((and_one_shift_pos mb (7 - k)).mpr h) hset
      refine ⟨?_, ?_, ?_⟩
      · intro px py hpx hpy
        rw [ihpix px py hpx hpy, rowCovers_succ, htb]
        simp
      · rw [ihov, rowCollides_succ, htb]
        simp
      · exact ihinv

/-- The row collision test depends only on the pixels of its own row. -/
theorem rowCollides_congr (mb xpos cur_y : Nat) (fb1 fb2 : Nat → Nat)
    (h : ∀ bit, bit < 8 → getPixel fb1 ((xpos + bit) % SCREEN_WIDTH) cur_y =
      getPixel fb2 ((xpos + bit) % SCREEN_WIDTH) cur_y) :
    rowCollides mb xpos cur_y 8 fb1 = rowCollides mb xpos cur_y 8 fb2 := by
  rw [← Bool.coe_iff_coe, rowCollides, rowCollides, List.any_eq_true, List.any_eq_true]
  constructor
  · rintro ⟨bit, hmem, hb⟩
    refine ⟨bit, hmem, ?_⟩
    rw [Bool.and_eq_true] at hb ⊢
    exact ⟨hb.1, by rw [← h bit (List.mem_range.mp hmem)]; exact hb.2⟩
  · rintro ⟨bit, hmem, hb⟩
    refine ⟨bit, hmem, ?_⟩
    rw [Bool.and_eq_true] at hb ⊢
    exact ⟨hb.1, by rw [h bit (List.mem_range.mp hmem)]; exact hb.2⟩

/-- Outer-loop invariant: after the first `k` sprite rows, each pixel
equals the original xor-ed with the sprite coverage so far, the overlap
flag has accumulated collisions against the original framebuffer, and
bytes outside the buffer (or bits above 7) are untouched.  Requires
`k ≤ 32` so that the rows hit pairwise-distinct screen lines. -/
theorem rowsFold_spec (mem : Nat → Nat) (ir xpos ypos : Nat) :
    ∀ (k : Nat), k ≤ 32 → ∀ (fb : Nat → Nat) (ov : Bool),
      (∀ px py, px < SCREEN_WIDTH → py < SCREEN_HEIGHT →
        getPixel (rowsFold mem ir xpos ypos k (fb, ov)).1 px py =
          (getPixel fb px py ^^ spriteCovers mem ir xpos ypos k px py)) ∧
      ((rowsFold mem ir xpos ypos k (fb, ov)).2 =
        (ov || spriteCollides mem ir xpos ypos k fb)) ∧
      (∀ i j, FRAME_BUFFER_SIZE ≤ i ∨ 8 ≤ j →
        ((rowsFold mem ir xpos ypos k (fb, ov)).1 i).testBit j = (fb i).testBit j) := by
  intro k
  induction k with
  | zero =>
    intro _ fb ov
    refine ⟨?_, ?_, ?_⟩
    · intro px py _ _
      simp [rowsFold, spriteCovers]
    · simp [rowsFold, spriteCollides]
    · intro i j _
      simp [rowsFold]
  | succ k ih =>
    intro hk fb ov
    obtain ⟨ihpix, ihov, ihinv⟩ := ih (by omega) fb ov
    rw [rowsFold_succ]
    set S := rowsFold mem ir xpos ypos k (fb, ov) with hS
    obtain ⟨pix, hov2, inv⟩ := bitsFold_spec xpos ((ypos + k) % SCREEN_HEIGHT)
      (mem (ir + k)) (Nat.mod_lt _ (by norm_num)) 8 le_rfl S.1 S.2
    simp only [Prod.mk.eta] at pix hov2 inv
    rw [drawRowP]
    have hyk : (ypos + k) % SCREEN_HEIGHT < 32 := Nat.mod_lt _ (by norm_num)
    -- a pixel on the new row is not covered by the previous rows
    have hfresh : ∀ px py, py = (ypos + k) % SCREEN_HEIGHT →
        spriteCovers mem ir xpos ypos k px py = false := by
      intro px py hpy
      rcases h : spriteCovers mem ir xpos ypos k px py
      · rfl
      · exfalso
        obtain ⟨r, hr, hpr⟩ := spriteCovers_py mem ir xpos ypos k px py h
        have h1 : (ypos + r) % 32 = (ypos + k) % 32 := by
          rw [← hpr, hpy]
        omega
    refine ⟨?_, ?_, ?_⟩
    · intro px py hpx hpy
      rw [pix px py hpx hpy, ihpix px py hpx hpy, spriteCovers_succ]
      by_cases hrk : rowCovers (mem (ir + k)) xpos ((ypos + k) % SCREEN_HEIGHT) 8 px py = true
      · have hpy' : py = (ypos + k) % SCREEN_HEIGHT := rowCovers_py _ _ _ _ _ _ hrk
        rw [hfresh px py hpy', hrk]
        simp
      · have hrkf : rowCovers (mem (ir + k)) xpos ((ypos + k) % SCREEN_HEIGHT) 8 px py
            = false := by
          rcases h : rowCovers (mem (ir + k)) xpos ((ypos + k) % SCREEN_HEIGHT) 8 px py
          · rfl
          · exact absurd h hrk
        rw [hrkf]
        simp
    · have hcong : rowCollides (mem (ir + k)) xpos ((ypos + k) % SCREEN_HEIGHT) 8 S.1 =
          rowCollides (mem (ir + k)) xpos ((ypos + k) % SCREEN_HEIGHT) 8 fb := by
        apply rowCollides_congr
        intro bit hbit
        have hx : (xpos + bit) % SCREEN_WIDTH < 64 := Nat.mod_lt _ (by norm_num)
        rw [ihpix _ _ hx hyk, hfresh _ _ rfl, Bool.xor_false]
      rw [hov2, ihov, hcong, spriteCollides_succ]
      simp [Bool.or_assoc]
    · intro i j hij
      rw [inv i j hij]
      exact ihinv i j hij

/-- What a successful draw does to the state: pixels are xor-ed with the
sprite coverage, VF records collision against the pre-draw framebuffer,
`display_changed` is set, and nothing else changes. -/
theorem drawnChip_spec (ch : Chip8) (regx regy n : Nat) (hn : n ≤ SCREEN_HEIGHT) :
    (∀ px py, px < SCREEN_WIDTH → py < SCREEN_HEIGHT →
      getPixel (drawnChip ch regx regy n).frame_buffer px py =
        (getPixel ch.frame_buffer px py ^^
          spriteCovers ch.memory ch.ir (ch.registers regx) (ch.registers regy) n px py)) ∧
    ((drawnChip ch regx regy n).registers REG_VF =
      if spriteCollides ch.memory ch.ir (ch.registers regx) (ch.registers regy) n
          ch.frame_buffer then 1 else 0) ∧
    (∀ i j, FRAME_BUFFER_SIZE ≤ i ∨ 8 ≤ j →
      ((drawnChip ch regx regy n).frame_buffer i).testBit j =
        (ch.frame_buffer i).testBit j) ∧
    ((drawnChip ch regx regy n).display_changed = true) ∧
    (∀ i, i ≠ REG_VF → (drawnChip ch regx regy n).registers i = ch.registers i) ∧
    ((drawnChip ch regx regy n).memory = ch.memory) ∧
    ((drawnChip ch regx regy n).ir = ch.ir) := by
  obtain ⟨pix, hov, inv⟩ := rowsFold_spec ch.memory ch.ir (ch.registers regx)
    (ch.registers regy) n hn ch.frame_buffer false
  refine ⟨?_, ?_, ?_, rfl, ?_, rfl, rfl⟩
  · intro px py hpx hpy
    exact pix px py hpx hpy
  · show updFn ch.registers REG_VF (if (drawPure ch regx regy n).2 then 1 else 0) REG_VF = _
    rw [updFn, if_pos rfl, drawPure, hov, Bool.false_or]
  · intro i j hij
    exact inv i j hij
  · intro i hi
    show updFn ch.registers REG_VF (if (drawPure ch regx regy n).2 then 1 else 0) i = _
    rw [updFn, if_neg hi]

/-- Each sprite-bit collision is a pixel that is covered and set, and
conversely. -/
theorem spriteCollides_iff_exists (mem : Nat → Nat) (ir xpos ypos n : Nat)
    (fb : Nat → Nat) :
    spriteCollides mem ir xpos ypos n fb = true ↔
      ∃ px py, px < SCREEN_WIDTH ∧ py < SCREEN_HEIGHT ∧
        spriteCovers mem ir xpos ypos n px py = true ∧ getPixel fb px py = true := by
  rw [spriteCollides, List.any_eq_true]
  constructor
  · rintro ⟨row, hrow, hb⟩
    rw [rowCollides, List.any_eq_true] at hb
    obtain ⟨bit, hbit, hbb⟩ := hb
    rw [Bool.and_eq_true] at hbb
    refine ⟨(xpos + bit) % SCREEN_WIDTH, (ypos + row) % SCREEN_HEIGHT,
      Nat.mod_lt _ (by norm_num), Nat.mod_lt _ (by norm_num), ?_, hbb.2⟩
    rw [spriteCovers, List.any_eq_true]
    refine ⟨row, hrow, ?_⟩
    rw [rowCovers, List.any_eq_true]
    refine ⟨bit, hbit, ?_⟩
    simp [hbb.1]
  · rintro ⟨px, py, hpx, hpy, hcov, hold⟩
    rw [spriteCovers, List.any_eq_true] at hcov
    obtain ⟨row, hrow, hb⟩ := hcov
    rw [rowCovers, List.any_eq_true] at hb
    obtain ⟨bit, hbit, hbb⟩ := hb
    simp only [Bool.and_eq_true, beq_iff_eq] at hbb
    refine ⟨row, hrow, ?_⟩
    rw [rowCollides, List.any_eq_true]
    refine ⟨bit, hbit, ?_⟩
    rw [Bool.and_eq_true]
    refine ⟨hbb.1.1, ?_⟩
    rw [← hbb.1.2, ← hbb.2]
    exact hold

/-- The set-to-unset scan as a bounded existential. -/
theorem anyToggledOff_iff_exists (f1 f2 : Nat → Nat) :
    anyToggledOff f1 f2 = true ↔
      ∃ px py, px < SCREEN_WIDTH ∧ py < SCREEN_HEIGHT ∧
        getPixel f1 px py = true ∧ getPixel f2 px py = false := by
  rw [anyToggledOff, List.any_eq_true]
  constructor
  · rintro ⟨px, hpx, hb⟩
    rw [List.any_eq_true] at hb
    obtain ⟨py, hpy, hbb⟩ := hb
    rw [Bool.and_eq_true] at hbb
    refine ⟨px, py, List.mem_range.mp hpx, List.mem_range.mp hpy, hbb.1, ?_⟩
    rcases h : getPixel f2 px py
    · rfl
    · rw [h] at hbb
      exact absurd hbb.2 (by simp)
  · rintro ⟨px, py, hpx, hpy, h1, h2⟩
    refine ⟨px, List.mem_range.mpr hpx, ?_⟩
    rw [List.any_eq_true]
    refine ⟨py, List.mem_range.mpr hpy, ?_⟩
    rw [Bool.and_eq_true, h2]
    exact ⟨h1, rfl⟩

/-- A pixel transitioned from set to unset by a draw exactly when a set
sprite bit hit an already-set pixel (the code's overlap flag). -/
theorem anyToggledOff_drawn (ch : Chip8) (regx regy n : Nat) (hn : n ≤ SCREEN_HEIGHT) :
    anyToggledOff ch.frame_buffer (drawnChip ch regx regy n).frame_buffer =
      spriteCollides ch.memory ch.ir (ch.registers regx) (ch.registers regy) n
        ch.frame_buffer := by
  obtain ⟨pix, _, _⟩ := drawnChip_spec ch regx regy n hn
  rw [← Bool.coe_iff_coe, anyToggledOff_iff_exists, spriteCollides_iff_exists]
  constructor
  · rintro ⟨px, py, hpx, hpy, h1, h2⟩
    refine ⟨px, py, hpx, hpy, ?_, h1⟩
    have := pix px py hpx hpy
    rw [h2, h1] at this
    rcases h : spriteCovers ch.memory ch.ir (ch.registers regx) (ch.registers regy) n px py
    · rw [h] at this
      exact absurd this.symm (by simp)
    · rfl
  · rintro ⟨px, py, hpx, hpy, hcov, hold⟩
    refine ⟨px, py, hpx, hpy, hold, ?_⟩
    rw [pix px py hpx hpy, hcov, hold]
    rfl

/-- Demonstration state for draws: `I = 0x300` points at a full sprite row
`0xFF`, `V0 = 60` (x position near the right edge), `V1 = 0`. -/
def c6St : Chip8 := { chInit with
    ir := 0x300,
    memory := updFn chInit.memory 0x300 0xFF,
    registers := updFn (updFn chInit.registers 0 60) 1 0 }

/-- **C6**: a draw of N sprite bytes read at the index register XORs each
set sprite bit into the framebuffer pixel at `((x+col) mod 64, (y+row) mod
32)` (toroidal wrap, always in bounds), sets VF to 1 iff some pixel
transitioned from set to unset, else 0, and raises `display_changed`. -/
theorem c6_draw (ch : Chip8) (regx regy n : Nat) (hn : n ≤ SCREEN_HEIGHT)
    (hb : ch.ir + n ≤ MEMORY_SIZE) :
    ((ch.op_drw regx regy n).map Prod.fst = some ProgramCounterControl.Next) ∧
    (∀ px py, px < SCREEN_WIDTH → py < SCREEN_HEIGHT →
      (ch.op_drw regx regy n).map (fun r => getPixel r.2.frame_buffer px py) =
        some (getPixel ch.frame_buffer px py ^^
          spriteCovers ch.memory ch.ir (ch.registers regx) (ch.registers regy) n px py)) ∧
    ((ch.op_drw regx regy n).map
        (fun r => r.2.registers REG_VF ==
          (if anyToggledOff ch.frame_buffer r.2.frame_buffer then 1 else 0)) =
      some true) ∧
    ((ch.op_drw regx regy n).map (fun r => r.2.display_changed) = some true) := by
  obtain ⟨pix, hvf, inv, hdc, hreg, hmem, hir⟩ := drawnChip_spec ch regx regy n hn
  rw [op_drw_eq ch regx regy n hb]
  refine ⟨rfl, ?_, ?_, ?_⟩
  · intro px py hpx hpy
    simp only [Option.map_some']
    rw [pix px py hpx hpy]
  · simp only [Option.map_some']
    rw [anyToggledOff_drawn ch regx regy n hn, hvf]
    simp
  · simp only [Option.map_some']
    rw [hdc]

/-- Witness for `c6_draw`: one `0xFF` sprite row drawn at `(60, 0)`. -/
theorem c6_witness :
    ((1 ≤ SCREEN_HEIGHT) ∧ (c6St.ir + 1 ≤ MEMORY_SIZE)) ∧
    (((c6St.op_drw 0 1 1).map Prod.fst = some ProgramCounterControl.Next) ∧
     (∀ px py, px < SCREEN_WIDTH → py < SCREEN_HEIGHT →
       (c6St.op_drw 0 1 1).map (fun r => getPixel r.2.frame_buffer px py) =
         some (getPixel c6St.frame_buffer px py ^^
           spriteCovers c6St.memory c6St.ir (c6St.registers 0) (c6St.registers 1) 1 px py)) ∧
     ((c6St.op_drw 0 1 1).map
         (fun r => r.2.registers REG_VF ==
           (if anyToggledOff c6St.frame_buffer r.2.frame_buffer then 1 else 0)) =
       some true) ∧
     ((c6St.op_drw 0 1 1).map (fun r => r.2.display_changed) = some true)) :=
  ⟨⟨by decide, by decide⟩, c6_draw c6St 0 1 1 (by decide) (by decide)⟩

/-- **C7**: drawing the identical sprite twice at the identical position
restores the framebuffer exactly, and the second draw's VF reports
collision exactly where the sprite's set bits overlap pixels set before
the second draw. -/
theorem c7_double_draw (ch : Chip8) (regx regy n : Nat) (hn : n ≤ SCREEN_HEIGHT)
    (hb : ch.ir + n ≤ MEMORY_SIZE) (hrx : regx ≠ REG_VF) (hry : regy ≠ REG_VF) :
    ∃ ch1 ch2,
      ch.op_drw regx regy n = some (ProgramCounterControl.Next, ch1) ∧
      ch1.op_drw regx regy n = some (ProgramCounterControl.Next, ch2) ∧
      (∀ i, ch2.frame_buffer i = ch.frame_buffer i) ∧
      (ch2.registers REG_VF =
        if spriteCollides ch.memory ch.ir (ch.registers regx) (ch.registers regy) n
            ch1.frame_buffer then 1 else 0) := by
  have hxpos : (drawnChip ch regx regy n).registers regx = ch.registers regx :=
    (drawnChip_spec ch regx regy n hn).2.2.2.2.1 regx hrx
  have hypos : (drawnChip ch regx regy n).registers regy = ch.registers regy :=
    (drawnChip_spec ch regx regy n hn).2.2.2.2.1 regy hry
  have hmem1 : (drawnChip ch regx regy n).memory = ch.memory := rfl
  have hir1 : (drawnChip ch regx regy n).ir = ch.ir := rfl
  refine ⟨drawnChip ch regx regy n, drawnChip (drawnChip ch regx regy n) regx regy n,
    op_drw_eq ch regx regy n hb, op_drw_eq _ regx regy n (by rw [hir1]; exact hb),
    ?_, ?_⟩
  · intro i
    obtain ⟨pix1, _, inv1, _⟩ := drawnChip_spec ch regx regy n hn
    obtain ⟨pix2, _, inv2, _⟩ := drawnChip_spec (drawnChip ch regx regy n) regx regy n hn
    rw [hxpos, hypos, hmem1, hir1] at pix2
    apply Nat.eq_of_testBit_eq
    intro j
    by_cases hc : i < FRAME_BUFFER_SIZE ∧ j < 8
    · obtain ⟨hi, hj⟩ := hc
      have hi256 : i < 256 := hi
      set px := (i % 8) * 8 + (7 - j) with hpx_def
      set py := i / 8 with hpy_def
      have hpx : px < 64 := by omega
      have hpy : py < 32 := by omega
      have hIdx : (py * SCREEN_WIDTH + px) / 8 = i := by
        show (py * 64 + px) / 8 = i
        omega
      have hJ : 7 - px % 8 = j := by omega
      have h1 := pix2 px py hpx hpy
      rw [pix1 px py hpx hpy, Bool.xor_assoc, Bool.xor_self, Bool.xor_false] at h1
      simp only [getPixel] at h1
      rw [hIdx, hJ] at h1
      exact h1
    · have hd : FRAME_BUFFER_SIZE ≤ i ∨ 8 ≤ j := by
        have hf : FRAME_BUFFER_SIZE = 256 := rfl
        omega
      rw [inv2 i j hd, inv1 i j hd]
  · have hvf2 := (drawnChip_spec (drawnChip ch regx regy n) regx regy n hn).2.1
    rw [hxpos, hypos, hmem1, hir1] at hvf2
    exact hvf2

/-- Witness for `c7_double_draw` at the `c6St` demonstration state. -/
theorem c7_witness :
    ((1 ≤ SCREEN_HEIGHT) ∧ (c6St.ir + 1 ≤ MEMORY_SIZE) ∧ ((0 : Nat) ≠ REG_VF) ∧
      ((1 : Nat) ≠ REG_VF)) ∧
    (∃ ch1 ch2,
      c6St.op_drw 0 1 1 = some (ProgramCounterControl.Next, ch1) ∧
      ch1.op_drw 0 1 1 = some (ProgramCounterControl.Next, ch2) ∧
      (∀ i, ch2.frame_buffer i = c6St.frame_buffer i) ∧
      (ch2.registers REG_VF =
        if spriteCollides c6St.memory c6St.ir (c6St.registers 0) (c6St.registers 1) 1
            ch1.frame_buffer then 1 else 0)) :=
  ⟨⟨by decide, by decide, by decide, by decide⟩,
   c7_double_draw c6St 0 1 1 (by decide) (by decide) (by decide) (by decide)⟩

/-! ## Keypad resolver (C9) -/

/-- A `some` result of the bit-scan loop is the lowest set bit at or
above the start index. -/
theorem lowestBitAux_spec (num : Nat) : ∀ (fuel i b : Nat),
    lowestBitAux num i fuel = some b →
    Nat.testBit num b ∧ i ≤ b ∧ b < i + fuel ∧
    ∀ j, i ≤ j → j < b → ¬ Nat.testBit num j := by
  intro fuel
  induction fuel with
  | zero =>
    intro i b h
    exact absurd h (by simp [lowestBitAux])
  | succ f ih =>
    intro i b h
    simp only [lowestBitAux] at h
    by_cases hbit : num &&& (1 <<< i) > 0
    · rw [if_pos hbit] at h
      have hib : i = b := by injection h
      subst hib
      exact ⟨(and_one_shift_pos num i).mp hbit, le_refl i, by omega,
             fun j h1 h2 => by omega⟩
    · rw [if_neg hbit] at h
      obtain ⟨ht, hle, hlt, hmin⟩ := ih (i + 1) b h
      refine ⟨ht, by omega, by omega, ?_⟩
      intro j h1 h2
      by_cases hj : j = i
      · subst hj
        intro htj
        exact hbit ((and_one_shift_pos num j).mpr htj)
      · exact hmin j (by omega) h2

/-- The bit-scan loop succeeds whenever a bit is set within its range. -/
theorem lowestBitAux_isSome (num : Nat) : ∀ (fuel i : Nat),
    (∃ j, i ≤ j ∧ j < i + fuel ∧ Nat.testBit num j) →
    (lowestBitAux num i fuel).isSome = true := by
  intro fuel
  induction fuel with
  | zero =>
    intro i h
    obtain ⟨j, h1, h2, _⟩ := h
    omega
  | succ f ih =>
    intro i h
    obtain ⟨j, h1, h2, h3⟩ := h
    simp only [lowestBitAux]
    by_cases hbit : num &&& (1 <<< i) > 0
    · rw [if_pos hbit]
      rfl
    · rw [if_neg hbit]
      apply ih
      refine ⟨j, ?_, by omega, h3⟩
      by_cases hj : j = i
      · subst hj
        exact absurd ((and_one_shift_pos num j).mpr h3) hbit
      · omega

/-- A nonzero 16-bit mask has a set bit below 16. -/
theorem exists_testBit_of_ne_zero (mask : Nat) (h0 : mask ≠ 0) (hlt : mask < 65536) :
    ∃ j, j < 16 ∧ Nat.testBit mask j := by
  by_contra hc
  push_neg at hc
  apply h0
  apply Nat.eq_of_testBit_eq
  intro j
  rw [Nat.zero_testBit]
  by_cases hj : j < 16
  · simpa using hc j hj
  · have hp : mask < 2 ^ j := by
      calc mask < 65536 := hlt
      _ = 2 ^ 16 := by norm_num
      _ ≤ 2 ^ j := Nat.pow_le_pow_right (by norm_num) (by omega)
    exact Nat.testBit_lt_two_pow hp

/-- Demonstration state with the keypad-wait latch set, target register 3. -/
def c9St : Chip8 := { chInit with keypad_waiting := true, keypad_reg := 3 }

/-- **C9**: keypad resolver.  With the wait latch set and a nonzero edge
mask the latch is cleared and the lowest-numbered set bit's index is
written into the recorded target register (other registers untouched);
with a zero mask, or with the latch clear, the call changes nothing. -/
theorem c9_keypad (ch : Chip8) (mask : Nat) (hmask : mask < 65536) :
    (ch.keypad_waiting = true → mask ≠ 0 →
      (ch.keypad_press mask).keypad_waiting = false ∧
      Nat.testBit mask ((ch.keypad_press mask).registers ch.keypad_reg) ∧
      (∀ j, j < (ch.keypad_press mask).registers ch.keypad_reg →
        ¬ Nat.testBit mask j) ∧
      (∀ i, i ≠ ch.keypad_reg → (ch.keypad_press mask).registers i = ch.registers i)) ∧
    (ch.keypad_waiting = true → mask = 0 → ch.keypad_press mask = ch) ∧
    (ch.keypad_waiting = false → ch.keypad_press mask = ch) := by
  refine ⟨?_, ?_, ?_⟩
  · intro hw hm
    have hsome : (get_lowest_bit_pos mask).isSome = true := by
      apply lowestBitAux_isSome
      obtain ⟨j, hj16, hjb⟩ := exists_testBit_of_ne_zero mask hm hmask
      exact ⟨j, by omega, by omega, hjb⟩
    rcases hgl : get_lowest_bit_pos mask with _ | bit
    · rw [hgl] at hsome
      simp at hsome
    · obtain ⟨ht, _, _, hmin⟩ := lowestBitAux_spec mask 16 0 bit hgl
      refine ⟨?_, ?_, ?_, ?_⟩
      · simp [Chip8.keypad_press, hw, hgl]
      · simp [Chip8.keypad_press, hw, hgl, updFn]
        exact ht
      · intro j hj
        simp only [Chip8.keypad_press, hw, if_true, hgl, updFn, if_pos rfl] at hj
        exact hmin j (by omega) hj
      · intro i hi
        simp [Chip8.keypad_press, hw, hgl, updFn, hi]
  · intro hw hm
    subst hm
    have hz : get_lowest_bit_pos 0 = none := by decide
    simp [Chip8.keypad_press, hw, hz]
  · intro hw
    simp [Chip8.keypad_press, hw]

/-- Witness for `c9_keypad`: edge mask `0x20` (key 5) resolves a pending
wait into register 3. -/
theorem c9_witness :
    (0x20 : Nat) < 65536 ∧ c9St.keypad_waiting = true ∧ (0x20 : Nat) ≠ 0 ∧
    ((c9St.keypad_press 0x20).keypad_waiting = false ∧
     Nat.testBit 0x20 ((c9St.keypad_press 0x20).registers c9St.keypad_reg) ∧
     (∀ j, j < (c9St.keypad_press 0x20).registers c9St.keypad_reg →
       ¬ Nat.testBit 0x20 j) ∧
     (∀ i, i ≠ c9St.keypad_reg →
       (c9St.keypad_press 0x20).registers i = c9St.registers i)) :=
  ⟨by decide, by decide, by decide,
   (c9_keypad c9St 0x20 (by decide)).1 (by decide) (by decide)⟩

/-- Witness for `c1_load` at the two-byte program `[1, 2]`. -/
theorem c1_witness :
    ([(1 : Nat), 2].length ≤ MEMORY_SIZE - MEMORY_OFFSET) ∧
    (chInit.load [1, 2]).1 = Except.ok () ∧
    (chInit.load [1, 2]).2.memory (MEMORY_OFFSET + 0) = 1 := by
  have h := c1_load chInit [1, 2]
  refine ⟨by decide, (h.1 (by decide)).1, ?_⟩
  have h2 := (h.1 (by decide)).2.1 0 (by decide)
  simpa using h2

end Chip8V
